import Mathlib

/-!
Verification of the Paper2Slides direct-ingestion core
(`api/ingestor/{md_parser,tex_parser,zip_handler,ingestor}.py`).

Shallow embedding conventions:
* Python strings are `List Char` (`Str`); string literals enter via `.data`.
* Python character scans / regex passes are embedded as executable scanners.
  Scanners that advance through the text take an explicit fuel argument that
  is set to the text length by the wrapper definitions; every scanning step
  consumes at least one character, so the fuel never runs out on the wrapped
  calls and the fuel-0 branch is unreachable there.
* Whitespace, `str.strip`, `str.lower` are modelled on the ASCII range.
-/

abbrev Str := List Char

/-- Python `\s` / `str.strip` whitespace characters (ASCII model). -/
def pyIsSpace (c : Char) : Bool :=
  c = ' ' || c = '\t' || c = '\n' || c = '\r' || c = '\x0b' || c = '\x0c'

/-- Python `str.strip()`. -/
def pyStrip (s : Str) : Str :=
  ((s.dropWhile pyIsSpace).reverse.dropWhile pyIsSpace).reverse

/-- Python `str.lower()` (ASCII model). -/
def pyLower (s : Str) : Str :=
  s.map Char.toLower

/-- Python substring test `needle in hay`. -/
def containsSub (needle : Str) : Str → Bool
  | [] => List.isPrefixOf needle []
  | c :: t => List.isPrefixOf needle (c :: t) || containsSub needle t

/-- Python `str.startswith`. -/
def pyStarts (p s : Str) : Bool :=
  List.isPrefixOf p s

/-- Python `str.endswith`. -/
def pyEnds (suf s : Str) : Bool :=
  List.isSuffixOf suf s

/-- Line-break test for Python `str.splitlines` (single-character breaks). -/
def isLineBreak (c : Char) : Bool :=
  c = '\n' || c = '\r' || c = '\x0b' || c = '\x0c' ||
  c = '\x1c' || c = '\x1d' || c = '\x1e' || c = '\u0085' ||
  c = '\u2028' || c = '\u2029'

/-- Python `str.splitlines` worker: accumulates the current line. -/
def splitLinesGo (cur : Str) : Str → List Str
  | [] => [cur.reverse]
  | '\r' :: '\n' :: rest =>
      cur.reverse :: (if rest.isEmpty then [] else splitLinesGo [] rest)
  | c :: rest =>
      if isLineBreak c then
        cur.reverse :: (if rest.isEmpty then [] else splitLinesGo [] rest)
      else
        splitLinesGo (c :: cur) rest

/-- Python `str.splitlines` (`"".splitlines() == []`, no trailing empty line). -/
def splitLinesPy (s : Str) : List Str :=
  if s.isEmpty then [] else splitLinesGo [] s

/-- `"\n".flatten(lines)`. -/
def joinNl (lines : List Str) : Str :=
  List.intercalate ['\n'] lines

/-- Decimal rendering of a `Nat` (for the f-string numbering in the assembler). -/
def natStr (n : Nat) : Str :=
  (Nat.repr n).data

namespace Tex

/--
`tex_parser._extract_braced` scan loop, from the source:
depth counter over the characters; on `{` append when already inside and
increment; on `}` decrement, return the buffer when the depth reaches 0,
otherwise append; other characters are appended while the depth is positive.
Falls off the end returning whatever was buffered.
-/
def extractBracedGo : Str → Int → Str → Str
  | [], _, buf => buf.reverse
  | c :: cs, depth, buf =>
      if c = '{' then
        extractBracedGo cs (depth + 1) (if depth > 0 then c :: buf else buf)
      else if c = '}' then
        if depth - 1 = 0 then buf.reverse
        else extractBracedGo cs (depth - 1) ('}' :: buf)
      else
        extractBracedGo cs depth (if depth > 0 then c :: buf else buf)

/-- `tex_parser._extract_braced(text, start)`. -/
def extract_braced (text : Str) (start : Nat) : Str :=
  extractBracedGo (text.drop start) 0 []

/-- Is `c` a LaTeX command-name character (`[a-zA-Z@]`)? -/
def isCmdChar (c : Char) : Bool :=
  ('a' ≤ c && c ≤ 'z') || ('A' ≤ c && c ≤ 'Z') || c = '@'

/--
Locate the first occurrence of `\cmd` followed (immediately after optional
whitespace, per regex `\\cmd\s*\{`) by `{`; return the suffix of the text
starting at that `{`.  This is `re.search(r"\\" + cmd + r"\s*\{", text)` with
the returned suffix standing for the index `m.end() - 1`.
-/
def findCmdOpenBrace (cmd : Str) : Str → Option Str
  | [] => none
  | c :: cs =>
      if c = '\\' && List.isPrefixOf cmd cs then
        let after := (List.drop cmd.length cs).dropWhile pyIsSpace
        match after with
        | '{' :: _ => some after
        | _ => findCmdOpenBrace cmd cs
      else findCmdOpenBrace cmd cs

/-- `tex_parser._extract_command_arg(text, cmd)`. -/
def extract_command_arg (text : Str) (cmd : Str) : Option Str :=
  match findCmdOpenBrace cmd text with
  | none => none
  | some suffix => some (extractBracedGo suffix 0 [])

end Tex

/-- Signed brace depth contribution of one character. -/
def braceDelta (c : Char) : Int :=
  if c = '{' then 1 else if c = '}' then -1 else 0

/--
Balancedness check written after the spec's words for §4.1: scanning `s`
from depth `d`, the depth never becomes negative and ends at 0.
-/
def balGo : Str → Int → Bool
  | [], d => d = 0
  | c :: cs, d =>
      let d' := d + braceDelta c
      decide (0 ≤ d') && balGo cs d'

/-- `s` is a balanced brace string (spec-side predicate). -/
def balancedBraces (s : Str) : Bool :=
  balGo s 0

/-! ## Parsed-document data model -/

/-- One section of the parsed document (`{heading, level, text, category}`). -/
structure DocSection where
  heading : Str
  level : Nat
  text : Str
  category : Str
deriving DecidableEq, Repr

/-- One figure (`{caption, path}`). -/
structure Figure where
  caption : Str
  path : Str
deriving DecidableEq, Repr

/-- The structured dict returned by both parsers. -/
structure ParsedDoc where
  title : Str
  authors : Str
  abstract : Str
  sections : List DocSection
  figures : List Figure
  tables : List Str
  equations : List Str
deriving DecidableEq, Repr

/-- The fixed category enumeration of the checkpoint format. -/
def categoryEnum : List Str :=
  ["paper_info".data, "abstract".data, "motivation".data, "solution".data,
   "results".data, "contributions".data]

/--
Spec-side classifier (§3 of the spec): lower-case the heading, walk a fixed
priority table of keyword sets, return the category of the first set with a
keyword occurring as a substring, defaulting to `paper_info`.
-/
def classifyPriority : List (List Str × Str) → Str → Str
  | [], _ => "paper_info".data
  | (kws, cat) :: rest, h =>
      if kws.any (fun k => containsSub k h) then cat else classifyPriority rest h

/-! ## Generic scanners (Python `re.finditer` / `re.sub` shapes)

A matcher `m` receives the suffix of the text at the current position and,
on success, returns the payload together with the rest of the text after the
match (which is always at least one character shorter).  On failure the scan
advances one character, as the `re` engine does.
-/

/-- `re.finditer`: collect payloads of non-overlapping leftmost matches. -/
def scanCollect {α : Type} (m : Str → Option (α × Str)) : Nat → Str → List α
  | 0, _ => []
  | _, [] => []
  | f + 1, c :: cs =>
      match m (c :: cs) with
      | some (a, rest) => a :: scanCollect m f rest
      | none => scanCollect m f cs

/-- `re.sub`: replace non-overlapping leftmost matches. -/
def scanReplace (m : Str → Option (Str × Str)) : Nat → Str → Str
  | 0, s => s
  | _, [] => []
  | f + 1, c :: cs =>
      match m (c :: cs) with
      | some (r, rest) => r ++ scanReplace m f rest
      | none => c :: scanReplace m f cs

/-- `.strip()` a captured group and drop it when empty (the `if eq:` guard). -/
def stripNonempty (s : Str) : Option Str :=
  let e := pyStrip s
  if e.isEmpty then none else some e

/-- Find the first `$$` in `s`; return the text before it and after it. -/
def splitAtDD : Nat → Str → Option (Str × Str)
  | 0, _ => none
  | _, [] => none
  | f + 1, c :: cs =>
      if c = '$' then
        match cs with
        | '$' :: rest => some ([], rest)
        | _ => (splitAtDD f cs).map (fun p => (c :: p.1, p.2))
      else (splitAtDD f cs).map (fun p => (c :: p.1, p.2))

/-- Matcher for `\$\$(.+?)\$\$` (DOTALL): leading `$$`, at least one content
character, then the earliest following `$$`. -/
def matchBlockEq (s : Str) : Option (Str × Str) :=
  match s with
  | '$' :: '$' :: c0 :: cs =>
      match splitAtDD cs.length cs with
      | some (before, after) => some (c0 :: before, after)
      | none => none
  | _ => none

/-- Scanner for inline math `(?<!\$)\$(?!\$)([^$\n]{2,}?)(?<!\$)\$(?!\$)`,
tracking the previous character for the look-behind. -/
def inlineEqScan : Nat → Option Char → Str → List Str
  | 0, _, _ => []
  | _, _, [] => []
  | f + 1, prev, c :: cs =>
      if c = '$' && prev != some '$' && cs.head? != some '$' then
        let content := cs.takeWhile (fun x => x != '$' && x != '\n')
        if content.length ≥ 2 then
          match cs.drop content.length with
          | '$' :: rest2 =>
              if rest2.head? == some '$' then inlineEqScan f (some c) cs
              else content :: inlineEqScan f (some '$') rest2
          | _ => inlineEqScan f (some c) cs
        else inlineEqScan f (some c) cs
      else inlineEqScan f (some c) cs

/-! ## Markdown parser (`md_parser.py`) -/

namespace Md

/-- `md_parser._classify_section`, keyword tuples verbatim from the source. -/
def classify_section (heading : Str) : Str :=
  let h := pyLower heading
  if containsSub "abstract".data h then "abstract".data
  else if ["introduction".data, "background".data, "related work".data,
           "related".data, "prior".data].any (fun k => containsSub k h) then
    "motivation".data
  else if ["method".data, "approach".data, "model".data, "architecture".data,
           "system".data, "proposed".data, "framework".data].any
            (fun k => containsSub k h) then
    "solution".data
  else if ["result".data, "experiment".data, "evaluation".data,
           "performance".data, "benchmark".data, "analysis".data].any
            (fun k => containsSub k h) then
    "results".data
  else if ["conclusion".data, "contribution".data, "summary".data,
           "discussion".data, "future".data].any (fun k => containsSub k h) then
    "contributions".data
  else "paper_info".data

/-- The Markdown keyword table in spec §3 shape. -/
def keywordTable : List (List Str × Str) :=
  [(["abstract".data], "abstract".data),
   (["introduction".data, "background".data, "related work".data,
     "related".data, "prior".data], "motivation".data),
   (["method".data, "approach".data, "model".data, "architecture".data,
     "system".data, "proposed".data, "framework".data], "solution".data),
   (["result".data, "experiment".data, "evaluation".data, "performance".data,
     "benchmark".data, "analysis".data], "results".data),
   (["conclusion".data, "contribution".data, "summary".data,
     "discussion".data, "future".data], "contributions".data)]

/-- Consume `\s*\n` greedily after a `---` fence: the whitespace run must
contain a newline; the match ends after its last newline. -/
def dashWsNl (u : Str) : Option Str :=
  let w := u.takeWhile pyIsSpace
  if w.contains '\n' then
    some (u.drop (w.length - (w.reverse.takeWhile (fun c => c != '\n')).length))
  else none

/-- Find the closing `\n---\s*\n` of the frontmatter (lazy group `(.*?)`). -/
def fmFindClose : Nat → Str → Str → Option (Str × Str)
  | 0, _, _ => none
  | _, _, [] => none
  | f + 1, acc, c :: cs =>
      if c = '\n' && pyStarts "---".data cs then
        match dashWsNl (cs.drop 3) with
        | some rest => some (acc.reverse, rest)
        | none => fmFindClose f (c :: acc) cs
      else fmFindClose f (c :: acc) cs

/-- `re.match(r"^---\s*\n(.*?)\n---\s*\n", text, re.DOTALL)`:
returns the frontmatter block's lines and the text after the match. -/
def fmMatch (text : Str) : Option (List Str × Str) :=
  if pyStarts "---".data text then
    match dashWsNl (text.drop 3) with
    | some body =>
        match fmFindClose body.length [] body with
        | some (content, rest) => some (splitLinesPy content, rest)
        | none => none
    | none => none
  else none

/-- Frontmatter key/value lines: `k.strip().lower() : v.strip()` per line
containing a colon (`str.partition(":")`). -/
def fmPairs (lines : List Str) : List (Str × Str) :=
  lines.filterMap fun line =>
    if line.contains ':' then
      let k := line.takeWhile (fun c => c != ':')
      some (pyLower (pyStrip k), pyStrip (line.drop (k.length + 1)))
    else none

/-- Python dict lookup over insertion-ordered pairs (later keys overwrite). -/
def dictGet (d : List (Str × Str)) (key : Str) : Option Str :=
  ((d.filter (fun p => p.1 == key)).getLast?).map Prod.snd

/-- Characters stripped by `frontmatter["title"].strip("\"'")`. -/
def isQuote (c : Char) : Bool :=
  c = '"' || c = Char.ofNat 39

/-- `str.strip(set)`. -/
def pyStripSet (p : Char → Bool) (s : Str) : Str :=
  ((s.dropWhile p).reverse.dropWhile p).reverse

/-- Matcher for `!\[([^\]]*)\]\(([^)]*)\)` producing a stripped `Figure`. -/
def matchMdFigure (s : Str) : Option (Figure × Str) :=
  match s with
  | '!' :: '[' :: cs =>
      let cap := cs.takeWhile (fun c => c != ']')
      match cs.drop cap.length with
      | ']' :: '(' :: cs2 =>
          let path := cs2.takeWhile (fun c => c != ')')
          match cs2.drop path.length with
          | ')' :: rest => some (⟨pyStrip cap, pyStrip path⟩, rest)
          | _ => none
      | _ => none
  | _ => none

/-- `re.search(r"\|[-:]+\|", raw)`. -/
def sepRowSearch : Str → Bool
  | [] => false
  | c :: cs =>
      if c = '|' then
        let run := cs.takeWhile (fun x => x = '-' || x = ':')
        if run.length ≥ 1 && (cs.drop run.length).head? == some '|' then true
        else sepRowSearch cs
      else sepRowSearch cs

/-- The table-run loop of `parse_markdown` (buffer kept in reverse order).
A run ended by a pipe-free line is kept only when it has ≥ 2 lines or a
separator row; a run still open at end of input is appended unconditionally. -/
def mdTablesLoop : List Str → List Str → List Str
  | [], buf => if buf.isEmpty then [] else [joinNl buf.reverse]
  | ln :: rest, buf =>
      if (pyStrip ln).contains '|' then mdTablesLoop rest (ln :: buf)
      else if buf.isEmpty then mdTablesLoop rest []
      else
        let raw := joinNl buf.reverse
        (if buf.length ≥ 2 || sepRowSearch raw then [raw] else []) ++
          mdTablesLoop rest []

/-- Tables pass of `parse_markdown` (source step 5). -/
def mdTables (text : Str) : List Str :=
  mdTablesLoop (splitLinesPy text) []

/-- Strip trailing spaces/tabs (the `[ \t]*$` tail of the heading pattern). -/
def rstripBlank (s : Str) : Str :=
  (s.reverse.dropWhile (fun c => c = ' ' || c = '\t')).reverse

/-- The `(.+?)[ \t]*$` group on the line `line0`: the line minus trailing
blanks, or its first character when it consists of blanks only. -/
def cGroup (line0 : Str) : Str :=
  let r := rstripBlank line0
  if r.isEmpty then line0.take 1 else r

/--
Attempt `^(#{1,6})\s+(.+?)[ \t]*$` (MULTILINE) at a line-start position:
1–6 hashes followed by whitespace; `\s+` is greedy (and may cross newlines),
`(.+?)` is lazy, `$` ends at the next newline or the end of input.
Returns (hash count, heading group, text after the match).
-/
def matchHeading (s : Str) : Option (Nat × Str × Str) :=
  let r := (s.takeWhile (fun c => c = '#')).length
  if 1 ≤ r && r ≤ 6 then
    let T := s.drop r
    match T.head? with
    | none => none
    | some t0 =>
      if pyIsSpace t0 then
        if T.any (fun c => !(pyIsSpace c)) then
          let R := T.dropWhile pyIsSpace
          let line0 := R.takeWhile (fun c => c != '\n')
          some (r, cGroup line0, R.drop line0.length)
        else
          let trailNl := (T.reverse.takeWhile (fun c => c = '\n')).length
          if trailNl + 1 < T.length then
            let R := T.drop (T.length - 1 - trailNl)
            let line0 := R.takeWhile (fun c => c != '\n')
            some (r, cGroup line0, R.drop line0.length)
          else none
      else none
  else none

/-- `re.split` with the heading pattern: returns the preamble and the list of
(hash count, heading group, following body segment) triples. -/
def splitHeadingsF : Nat → Bool → Str → (Str × List (Nat × Str × Str))
  | 0, _, s => (s, [])
  | _, _, [] => ([], [])
  | f + 1, atStart, c :: cs =>
      if atStart then
        match matchHeading (c :: cs) with
        | some (lvl, h, rest) =>
            let (seg, secs) := splitHeadingsF f false rest
            ([], (lvl, h, seg) :: secs)
        | none =>
            let (seg, secs) := splitHeadingsF f (c = '\n') cs
            (c :: seg, secs)
      else
        let (seg, secs) := splitHeadingsF f (c = '\n') cs
        (c :: seg, secs)

/-- Heading split of the (post-frontmatter) document text. -/
def splitHeadings (text : Str) : Str × List (Nat × Str × Str) :=
  splitHeadingsF text.length true text

/-- The section loop of `parse_markdown` (source step 6), threading the
title (first H1 wins if the frontmatter gave none) and the abstract (first
`abstract`-classified section wins). -/
def mdSectionsFold :
    List (Nat × Str × Str) → Str → Str → (Str × Str × List DocSection)
  | [], title, abs => (title, abs, [])
  | (lvl, h, body) :: rest, title, abs =>
      let heading := pyStrip h
      let bodyS := pyStrip body
      let title' := if lvl = 1 && title.isEmpty then heading else title
      let cat := classify_section heading
      let abs' := if cat == "abstract".data && abs.isEmpty then bodyS else abs
      let folded := mdSectionsFold rest title' abs'
      (folded.1, folded.2.1, ⟨heading, lvl, bodyS, cat⟩ :: folded.2.2)

/-- `re.match(r"[A-Z][a-z]+", candidate)` is truthy. -/
def upperLowerStart (cand : Str) : Bool :=
  match cand with
  | c0 :: c1 :: _ => ('A' ≤ c0 && c0 ≤ 'Z') && ('a' ≤ c1 && c1 ≤ 'z')
  | _ => false

/-- The author-line heuristic condition of `parse_markdown` (source step 7). -/
def authorCandidateOk (cand : Str) : Bool :=
  cand.length < 200 &&
  (cand.contains ',' || containsSub " and ".data (pyLower cand) ||
    upperLowerStart cand)

/-- Potential author line from the preamble (source step 7). -/
def mdAuthorsFromPreamble (preamble : Str) : Str :=
  let lines := ((splitLinesPy preamble).map pyStrip).filter (fun l => !l.isEmpty)
  let nonHeading := lines.filter (fun l => !(pyStarts "#".data l))
  match nonHeading with
  | [] => []
  | cand :: _ => if authorCandidateOk cand then cand else []

/-- `md_parser.parse_markdown`, on the file's text. -/
def parse_markdown (text : Str) : ParsedDoc :=
  let fm := fmMatch text
  let fmkv := match fm with
    | some (lines, _) => fmPairs lines
    | none => []
  let text1 := match fm with
    | some (_, rest) => rest
    | none => text
  let title0 := match dictGet fmkv "title".data with
    | some v => pyStripSet isQuote v
    | none => []
  let authors0 := match dictGet fmkv "authors".data with
    | some v => v
    | none =>
        match dictGet fmkv "author".data with
        | some v => v
        | none => []
  let blockEqs := (scanCollect matchBlockEq text1.length text1).filterMap stripNonempty
  let textNoBlock :=
    scanReplace (fun s => (matchBlockEq s).map (fun p => ("[EQUATION]".data, p.2)))
      text1.length text1
  let inlineEqs := (inlineEqScan textNoBlock.length none textNoBlock).filterMap stripNonempty
  let figures := scanCollect matchMdFigure text1.length text1
  let tables := mdTables text1
  let parts := splitHeadings text1
  let folded := mdSectionsFold parts.2 title0 []
  let authors1 := if authors0.isEmpty then mdAuthorsFromPreamble parts.1 else authors0
  ⟨folded.1, authors1, folded.2.1, folded.2.2, figures, tables, blockEqs ++ inlineEqs⟩

end Md

/-! ## LaTeX parser (`tex_parser.py`) -/

namespace Tex

/-- `[a-zA-Z0-9_]` (the `\b` word-character class). -/
def isWordChar (c : Char) : Bool :=
  ('a' ≤ c && c ≤ 'z') || ('A' ≤ c && c ≤ 'Z') || ('0' ≤ c && c ≤ '9') || c = '_'

/-- Case-insensitive prefix test against an already-lower-case pattern. -/
def ciStarts (pat s : Str) : Bool :=
  (s.take pat.length).map Char.toLower == pat

/-- `Path(base) / ref` as a string. -/
def pathJoin (base ref : Str) : Str :=
  base ++ '/' :: ref

/-- `Path(p).name`: the component after the last `/`. -/
def baseName (p : Str) : Str :=
  (p.reverse.takeWhile (fun c => c != '/')).reverse

/-- `Path(p).parent` as a string (`"."` when there is no directory part). -/
def parentDir (p : Str) : Str :=
  if p.contains '/' then p.take (p.length - (baseName p).length - 1)
  else ".".data

/-- `if not ref.endswith(".tex"): ref += ".tex"`. -/
def addTexExt (ref : Str) : Str :=
  if pyEnds ".tex".data ref then ref else ref ++ ".tex".data

/-- Matcher for `\\(?:input|include)\{([^}]+)\}`: the reference and the
text after the closing brace. -/
def matchIncludeDirective (s : Str) : Option (Str × Str) :=
  match s with
  | '\\' :: cs =>
      let afterWord : Option Str :=
        if pyStarts "input".data cs then some (cs.drop 5)
        else if pyStarts "include".data cs then some (cs.drop 7)
        else none
      match afterWord with
      | some ('{' :: cs2) =>
          let ref := cs2.takeWhile (fun c => c != '}')
          if ref.isEmpty then none
          else
            match cs2.drop ref.length with
            | '}' :: rest => some (ref, rest)
            | _ => none
      | _ => none
  | _ => none

/-- File system model for include resolution: (path, content) pairs with
`Path.exists` as lookup success. -/
abbrev FileSys := List (Str × Str)

/-- Path lookup (`sub_path.exists()` plus `_read_file`). -/
def fsLookup (fs : FileSys) (p : Str) : Option Str :=
  ((fs.filter (fun e => e.1 == p)).head?).map Prod.snd

/-- The body of the `replacer` closure in `_inline_includes`: strip the
reference, default the `.tex` extension, try `base_dir/ref` then
`base_dir/Path(ref).name`, recursing via `repl` on the found file's content
and its parent directory; unresolved references become empty text. -/
def resolveInclude (fs : FileSys) (repl : Str → Str → Str) (baseDir ref0 : Str) : Str :=
  let ref := addTexExt (pyStrip ref0)
  let p1 := pathJoin baseDir ref
  match fsLookup fs p1 with
  | some content => repl content (parentDir p1)
  | none =>
      let p2 := pathJoin baseDir (baseName ref)
      match fsLookup fs p2 with
      | some content => repl content (parentDir p2)
      | none => []

/--
`tex_parser._inline_includes`, fuel form: the source guard `depth > 5`
(return the text unexpanded) is the `gas = 0` case under `gas = 6 - depth`,
and each recursive `replacer` call at `depth + 1` runs with `gas - 1`.
-/
def inlineIncludesCore (fs : FileSys) : Nat → Str → Str → Str
  | 0, text, _ => text
  | g + 1, text, baseDir =>
      scanReplace
        (fun s => (matchIncludeDirective s).map
          (fun p =>
            (resolveInclude fs (fun sub subdir => inlineIncludesCore fs g sub subdir)
              baseDir p.1, p.2)))
        text.length text

/-- `tex_parser._inline_includes(text, base_dir, depth)`. -/
def inline_includes (fs : FileSys) (text : Str) (baseDir : Str) (depth : Nat) : Str :=
  inlineIncludesCore fs (6 - depth) text baseDir

/-- `tex_parser._classify_section`, keyword tuples verbatim from the source
(the LaTeX variant has extra keywords vs the Markdown one). -/
def classify_section (heading : Str) : Str :=
  let h := pyLower heading
  if containsSub "abstract".data h then "abstract".data
  else if ["introduction".data, "background".data, "related work".data,
           "related".data, "motivation".data, "prior work".data].any
            (fun k => containsSub k h) then
    "motivation".data
  else if ["method".data, "approach".data, "model".data, "architecture".data,
           "system".data, "proposed".data, "framework".data, "design".data].any
            (fun k => containsSub k h) then
    "solution".data
  else if ["result".data, "experiment".data, "evaluation".data,
           "performance".data, "benchmark".data, "analysis".data,
           "ablation".data].any (fun k => containsSub k h) then
    "results".data
  else if ["conclusion".data, "contribution".data, "summary".data,
           "discussion".data, "future".data].any (fun k => containsSub k h) then
    "contributions".data
  else "paper_info".data

/-- The LaTeX keyword table in spec §3 shape. -/
def keywordTable : List (List Str × Str) :=
  [(["abstract".data], "abstract".data),
   (["introduction".data, "background".data, "related work".data,
     "related".data, "motivation".data, "prior work".data], "motivation".data),
   (["method".data, "approach".data, "model".data, "architecture".data,
     "system".data, "proposed".data, "framework".data, "design".data],
    "solution".data),
   (["result".data, "experiment".data, "evaluation".data, "performance".data,
     "benchmark".data, "analysis".data, "ablation".data], "results".data),
   (["conclusion".data, "contribution".data, "summary".data,
     "discussion".data, "future".data], "contributions".data)]

/-- Step 1 of `_strip_commands`: `re.sub(r"(?m)%.*$", "", text)` — truncate
every line at its first `%`. -/
def stripComments (text : Str) : Str :=
  List.intercalate ['\n']
    ((text.splitOn '\n').map (fun line => line.takeWhile (fun c => c != '%')))

/-- The pass-through formatting commands of `_strip_commands`, in the
alternation order of the source regex. -/
def formattingWords : List Str :=
  ["textbf".data, "textit".data, "texttt".data, "emph".data,
   "underline".data, "textsc".data, "textrm".data, "textsf".data,
   "textsl".data, "mbox".data, "hbox".data, "vbox".data, "text".data,
   "mathrm".data, "mathbf".data, "mathit".data, "mathsf".data,
   "mathtt".data, "mathbb".data, "mathcal".data, "mathfrak".data]

/-- Try each alternation word in order, requiring `{content}` with a
brace-free content directly after the word. -/
def matchWordBraced : List Str → Str → Option (Str × Str)
  | [], _ => none
  | w :: ws, cs =>
      if pyStarts w cs then
        match cs.drop w.length with
        | '{' :: cs2 =>
            let content := cs2.takeWhile (fun c => c != '{' && c != '}')
            match cs2.drop content.length with
            | '}' :: rest => some (content, rest)
            | _ => matchWordBraced ws cs
        | _ => matchWordBraced ws cs
      else matchWordBraced ws cs

/-- Matcher for the formatting-unwrap regex of `_strip_commands` step 2. -/
def matchFormatting (s : Str) : Option (Str × Str) :=
  match s with
  | '\\' :: cs => matchWordBraced formattingWords cs
  | _ => none

/-- Matcher for `\\[a-zA-Z@]+\{([^{}]*)\}` (step 3). -/
def matchUnknownCmd (s : Str) : Option (Str × Str) :=
  match s with
  | '\\' :: cs =>
      let name := cs.takeWhile isCmdChar
      if name.isEmpty then none
      else
        match cs.drop name.length with
        | '{' :: cs2 =>
            let content := cs2.takeWhile (fun c => c != '{' && c != '}')
            match cs2.drop content.length with
            | '}' :: rest => some (content, rest)
            | _ => none
        | _ => none
  | _ => none

/-- Consume `(?:\[[^\]]*\])*`: complete bracket groups, greedily. -/
def consumeBrackets : Nat → Str → Str
  | 0, s => s
  | f + 1, s =>
      match s with
      | '[' :: cs =>
          let inner := cs.takeWhile (fun c => c != ']')
          match cs.drop inner.length with
          | ']' :: rest => consumeBrackets f rest
          | _ => s
      | _ => s

/-- Matcher for `\\[a-zA-Z@]+\*?(?:\[[^\]]*\])*\s*` (step 4, removed). -/
def matchBareCmd (s : Str) : Option (Str × Str) :=
  match s with
  | '\\' :: cs =>
      let name := cs.takeWhile isCmdChar
      if name.isEmpty then none
      else
        let afterName := cs.drop name.length
        let afterStar := match afterName with
          | '*' :: r => r
          | _ => afterName
        let afterBr := consumeBrackets afterStar.length afterStar
        some ([], afterBr.dropWhile pyIsSpace)
  | _ => none

/-- Matcher for `\n{3,}` → `"\n\n"` (step 6a). -/
def matchNlRun (s : Str) : Option (Str × Str) :=
  match s with
  | '\n' :: cs =>
      let run := cs.takeWhile (fun c => c = '\n')
      if run.length + 1 ≥ 3 then some ("\n\n".data, cs.drop run.length)
      else none
  | _ => none

/-- Matcher for `[ \t]+` → `" "` (step 6b). -/
def matchBlankRun (s : Str) : Option (Str × Str) :=
  match s with
  | c :: cs =>
      if c = ' ' || c = '\t' then
        some ([' '], cs.dropWhile (fun x => x = ' ' || x = '\t'))
      else none
  | _ => none

/-- Apply a text pass `n` times (`for _ in range(n)`) . -/
def repeatPass (p : Str → Str) : Nat → Str → Str
  | 0, t => t
  | n + 1, t => repeatPass p n (p t)

/-- `tex_parser._strip_commands`. -/
def strip_commands (text : Str) : Str :=
  let t1 := stripComments text
  let t2 := repeatPass (fun t => scanReplace matchFormatting t.length t) 5 t1
  let t3 := repeatPass (fun t => scanReplace matchUnknownCmd t.length t) 5 t2
  let t4 := scanReplace matchBareCmd t3.length t3
  let t5 := t4.filter (fun c => c != '{' && c != '}')
  let t6 := scanReplace matchNlRun t5.length t5
  let t7 := scanReplace matchBlankRun t6.length t6
  pyStrip t7

/-- `\begin{name}` as a string (name is inserted between the braces). -/
def envBegin (name : Str) : Str :=
  "\\begin".data ++ '{' :: (name ++ ['}'])

/-- `\end{name}` as a string. -/
def envEnd (name : Str) : Str :=
  "\\end".data ++ '{' :: (name ++ ['}'])

/-- First case-insensitive occurrence of `pat` (already lower-case) in `s`:
the text before it and the text after it. -/
def findCiSub (pat : Str) : Nat → Str → Option (Str × Str)
  | 0, _ => none
  | f + 1, s =>
      if ciStarts pat s then some ([], s.drop pat.length)
      else
        match s with
        | [] => none
        | c :: cs => (findCiSub pat f cs).map (fun p => (c :: p.1, p.2))

/-- Matcher for `\begin{name}(.*?)\end{name}` (DOTALL, IGNORECASE):
content of the environment and the text after `\end{name}`. -/
def matchEnv (name : Str) (s : Str) : Option (Str × Str) :=
  if ciStarts (envBegin name) s then
    let afterBegin := s.drop (envBegin name).length
    findCiSub (envEnd name) afterBegin.length afterBegin
  else none

/-- `tex_parser._extract_env(text, env_name)`. -/
def extract_env (text : Str) (name : Str) : List Str :=
  scanCollect (matchEnv name) text.length text

/-- `\section|\subsection|\subsubsection` alternation, in source order. -/
def secAlternatives : List Str :=
  ["section".data, "subsection".data, "subsubsection".data]

/-- `_level_map.get(cmd, 1)`. -/
def level_map (cmd : Str) : Nat :=
  if cmd == "section".data then 1
  else if cmd == "subsection".data then 2
  else if cmd == "subsubsection".data then 3
  else 1

/-- Try the section alternation words at a position just after `\`
(IGNORECASE, optional `*`, `\s*`, then `{([^}]*)}`). -/
def secTryWords : List Str → Str → Option ((Str × Str) × Str)
  | [], _ => none
  | w :: ws, cs =>
      if ciStarts w cs then
        let after := cs.drop w.length
        let after2 := if after.head? == some '*' then after.drop 1 else after
        match after2.dropWhile pyIsSpace with
        | '{' :: cs2 =>
            let content := cs2.takeWhile (fun c => c != '}')
            match cs2.drop content.length with
            | '}' :: rest => some ((w, content), rest)
            | _ => secTryWords ws cs
        | _ => secTryWords ws cs
      else secTryWords ws cs

/-- Matcher for the section-heading regex of `parse_latex` step 4:
payload is (canonical lower-case command word, raw heading group). -/
def matchSecCmd (s : Str) : Option ((Str × Str) × Str) :=
  match s with
  | '\\' :: cs => secTryWords secAlternatives cs
  | _ => none

/-- Scan for section commands, attaching to each match the raw body text up
to the start of the next match (or the end of the input), as
`raw[m.end() : next.start()]` does. -/
def texSecScanGo : Nat → Option ((Str × Str) × Str) → Str → List ((Str × Str) × Str)
  | 0, st, s =>
      (match st with
       | none => []
       | some (ch, acc) => [(ch, acc.reverse ++ s)])
  | _ + 1, st, [] =>
      (match st with
       | none => []
       | some (ch, acc) => [(ch, acc.reverse)])
  | f + 1, st, c :: cs =>
      match matchSecCmd (c :: cs) with
      | some (ch', rest) =>
          (match st with
           | none => texSecScanGo f (some (ch', [])) rest
           | some (ch, acc) => (ch, acc.reverse) :: texSecScanGo f (some (ch', [])) rest)
      | none =>
          (match st with
           | none => texSecScanGo f none cs
           | some (ch, acc) => texSecScanGo f (some (ch, c :: acc)) cs)

/-- All ((cmd, raw heading), raw body) triples of the document. -/
def texSecMatches (raw : Str) : List ((Str × Str) × Str) :=
  texSecScanGo raw.length none raw

/-- The environment names stripped from section bodies (source order of the
alternation in `parse_latex` step 4; case-sensitive, unlike `_extract_env`). -/
def stripEnvNames : List Str :=
  ["figure".data, "table".data, "tabular".data, "equation".data,
   "align".data, "align*".data, "eqnarray".data, "gather".data,
   "gather*".data]

/-- At a position just after `\begin{` / `\end{`: the first alternation name
that is a prefix and is followed by `}`; returns the text after the `}`. -/
def nameBraceAt : List Str → Str → Option Str
  | [], _ => none
  | w :: ws, cs =>
      if pyStarts w cs && (cs.drop w.length).head? == some '}' then
        some (cs.drop (w.length + 1))
      else nameBraceAt ws cs

/-- `\begin{<strip env>}` at this position (case-sensitive). -/
def matchStripEnvBegin (s : Str) : Option Str :=
  if pyStarts ("\\begin".data ++ ['{']) s then nameBraceAt stripEnvNames (s.drop 7)
  else none

/-- `\end{<strip env>}` at this position (case-sensitive). -/
def matchStripEnvEnd (s : Str) : Option Str :=
  if pyStarts ("\\end".data ++ ['{']) s then nameBraceAt stripEnvNames (s.drop 5)
  else none

/-- Earliest `\end{<strip env>}` from this position on; text after it. -/
def findStripEnvEnd : Nat → Str → Option Str
  | 0, _ => none
  | f + 1, s =>
      match matchStripEnvEnd s with
      | some rest => some rest
      | none =>
          match s with
          | [] => none
          | _ :: cs => findStripEnvEnd f cs

/-- Matcher for the body-environment-strip regex (replaced by `""`). -/
def matchStripEnv (s : Str) : Option (Str × Str) :=
  match matchStripEnvBegin s with
  | some afterBegin =>
      match findStripEnvEnd afterBegin.length afterBegin with
      | some rest => some ([], rest)
      | none => none
  | none => none

/-- `re.sub` of the extracted environments out of a section body. -/
def stripExtractedEnvs (body : Str) : Str :=
  scanReplace matchStripEnv body.length body

/-- The section loop of `parse_latex` step 4, threading the abstract. -/
def texSectionsFold : List ((Str × Str) × Str) → Str → (Str × List DocSection)
  | [], abs => (abs, [])
  | ((cmd, hRaw), bRaw) :: rest, abs =>
      let heading := pyStrip (strip_commands hRaw)
      let level := level_map cmd
      let text := pyStrip (strip_commands (stripExtractedEnvs bRaw))
      let cat := classify_section heading
      let abs' := if cat == "abstract".data && abs.isEmpty then text else abs
      let folded := texSectionsFold rest abs'
      (folded.1, ⟨heading, level, text, cat⟩ :: folded.2)

/-- First `\caption{` occurrence (case-sensitive); the suffix starting at
its `{` (the source's `cap_m.end() - 1` index). -/
def findCapBrace : Str → Option Str
  | [] => none
  | c :: cs =>
      if pyStarts ("\\caption".data ++ ['{']) (c :: cs) then
        some ((c :: cs).drop 8)
      else findCapBrace cs

/-- Matcher for `\\includegraphics\s*(?:\[[^\]]*\])?\s*\{([^}]+)\}`. -/
def matchIncludeGraphics (s : Str) : Option (Str × Str) :=
  match s with
  | '\\' :: cs =>
      if pyStarts "includegraphics".data cs then
        let a1 := (cs.drop 15).dropWhile pyIsSpace
        let a2 : Option Str :=
          match a1 with
          | '[' :: r =>
              let inner := r.takeWhile (fun c => c != ']')
              (match r.drop inner.length with
               | ']' :: rest => some rest
               | _ => none)
          | _ => some a1
        match a2 with
        | none => none
        | some a3 =>
            match a3.dropWhile pyIsSpace with
            | '{' :: cs2 =>
                let path := cs2.takeWhile (fun c => c != '}')
                if path.isEmpty then none
                else
                  match cs2.drop path.length with
                  | '}' :: rest => some (path, rest)
                  | _ => none
            | _ => none
      else none
  | _ => none

/-- Figures from `figure` environments (`parse_latex` step 5, first pass). -/
def texFiguresFromEnvs (raw : Str) : List Figure :=
  ((extract_env raw "figure".data).map (fun env =>
    let caption := match findCapBrace env with
      | some suf => strip_commands (extractBracedGo suf 0 [])
      | none => []
    (scanCollect matchIncludeGraphics env.length env).map
      (fun p => (⟨pyStrip caption, pyStrip p⟩ : Figure)))).flatten

/-- `raw` with `figure` environments removed (for the bare-figure pass). -/
def rawNoFigs (raw : Str) : Str :=
  scanReplace (fun s => (matchEnv "figure".data s).map (fun p => ([], p.2)))
    raw.length raw

/-- Bare `\includegraphics` outside figure environments (step 5, 2nd pass). -/
def texBareFigures (raw : Str) : List Figure :=
  (scanCollect matchIncludeGraphics (rawNoFigs raw).length (rawNoFigs raw)).map
    (fun p => ⟨[], pyStrip p⟩)

/-- Tables (`parse_latex` step 6): every `tabular` content verbatim
(stripped), plus caption placeholders for `table` environments that do not
contain a `tabular`. -/
def texTables (raw : Str) : List Str :=
  (extract_env raw "tabular".data).map pyStrip ++
  (extract_env raw "table".data).filterMap (fun env =>
    if containsSub ("\\begin".data ++ '{' :: ("tabular".data ++ ['}'])) env then none
    else
      match findCapBrace env with
      | some suf =>
          some ("[Table: ".data ++
            pyStrip (strip_commands (extractBracedGo suf 0 [])) ++ [']'])
      | none => none)

/-- The equation environment names scanned by `parse_latex` step 7. -/
def eqEnvNames : List Str :=
  ["equation".data, "equation*".data, "align".data, "align*".data,
   "eqnarray".data, "gather".data, "gather*".data, "multline".data,
   "multline*".data]

/-- The equations accumulated before deduplication: named environments in
order, then inline `$...$`, then display `$$...$$`. -/
def texRawEquations (raw : Str) : List Str :=
  (eqEnvNames.map (fun env => (extract_env raw env).filterMap stripNonempty)).flatten ++
  (inlineEqScan raw.length none raw).filterMap stripNonempty ++
  (scanCollect matchBlockEq raw.length raw).filterMap stripNonempty

/-- The `seen`-set deduplication loop of `parse_latex` (lines 376–383). -/
def dedupGo (seen : List Str) : List Str → List Str
  | [] => []
  | x :: xs =>
      if seen.contains x then dedupGo seen xs
      else x :: dedupGo (x :: seen) xs

/-- Deduplicate preserving order (the source's `seen` / `unique_eqs` loop). -/
def pyDedup (l : List Str) : List Str :=
  dedupGo [] l

/-- Matcher for `re.sub(r"\\and\b", ", ", ...)`. -/
def matchAndBoundary (s : Str) : Option (Str × Str) :=
  match s with
  | '\\' :: 'a' :: 'n' :: 'd' :: rest =>
      match rest.head? with
      | some c => if isWordChar c then none else some (", ".data, rest)
      | none => some (", ".data, rest)
  | _ => none

/-- Matcher for `re.sub(r"\\\\", " ", ...)`. -/
def matchDoubleBackslash (s : Str) : Option (Str × Str) :=
  match s with
  | '\\' :: '\\' :: rest => some ([' '], rest)
  | _ => none

/--
`tex_parser.parse_latex` applied to the include-resolved document text
(`raw` is the text after `_read_file` + `_inline_includes`; quantifying over
`raw` covers every file-system outcome of those steps).
-/
def parse_latex_raw (raw : Str) : ParsedDoc :=
  let title := match extract_command_arg raw "title".data with
    | some t => if t.isEmpty then [] else pyStrip (strip_commands t)
    | none => []
  let authors := match extract_command_arg raw "author".data with
    | some a =>
        if a.isEmpty then []
        else
          let a1 := scanReplace matchAndBoundary a.length a
          let a2 := scanReplace matchDoubleBackslash a1.length a1
          pyStrip (strip_commands a2)
    | none => []
  let abstract0 := match (extract_env raw "abstract".data).head? with
    | some ab => pyStrip (strip_commands ab)
    | none => []
  let folded := texSectionsFold (texSecMatches raw) abstract0
  ⟨title, authors, folded.1, folded.2,
   texFiguresFromEnvs raw ++ texBareFigures raw,
   texTables raw,
   pyDedup (texRawEquations raw)⟩

end Tex

/-! ## ZIP main-file selector (`zip_handler.py`) -/

namespace Zip

/-- All `\input`/`\include` reference groups of a file's content. -/
def findIncludeRefs (content : Str) : List Str :=
  scanCollect Tex.matchIncludeDirective content.length content

/-- `str.replace("\\", "/")`. -/
def normSlash (s : Str) : Str :=
  s.map (fun c => if c = '\\' then '/' else c)

/-- The per-match, per-file condition of the inclusion-count loop:
`str(tf) != reader_path and (tf.name == included_name or
 str(tf).replace("\\","/").endswith(included.replace("\\","/")))`. -/
def refMatches (tfPath readerPath : Str) (ref : Str) : Bool :=
  let included := Tex.addTexExt (pyStrip ref)
  tfPath != readerPath &&
    (Tex.baseName tfPath == Tex.baseName included ||
      pyEnds (normSlash included) (normSlash tfPath))

/-- `inclusion_count[tf]`: how many include directives of other files
match `tfPath`. -/
def inclusionCount (files : Tex.FileSys) (tfPath : Str) : Nat :=
  (files.map
    (fun rc => ((findIncludeRefs rc.2).filter (refMatches tfPath rc.1)).length)).sum

/-- The score of one `.tex` file (+100 documentclass, +50 begin document,
−10 per inclusion by another file). -/
def score (files : Tex.FileSys) (f : Str × Str) : Int :=
  (if containsSub "\\documentclass".data f.2 then 100 else 0) +
  (if containsSub "\\begin{document}".data f.2 then 50 else 0) -
  10 * (inclusionCount files f.1 : Int)

/-- Python `max(..., key=...)` keeps the current best on ties, so the first
maximal element of the iteration order wins. -/
def argmaxGo : (Str × Int) → List (Str × Int) → (Str × Int)
  | best, [] => best
  | best, x :: xs => argmaxGo (if x.2 > best.2 then x else best) xs

/-- `max(scores, key=lambda k: scores[k])` over the insertion order. -/
def pyMaxByScore : List (Str × Int) → Option Str
  | [] => none
  | x :: xs => some (argmaxGo x xs).1

/-- `zip_handler.extract_and_find_main` after extraction: scores every file
and returns the first maximal one (`none` models the no-`.tex`-files
`ValueError`). -/
def extract_and_find_main (files : Tex.FileSys) : Option Str :=
  pyMaxByScore (files.map (fun f => (f.1, score files f)))

end Zip

/-! ## Assembler / exporter (`ingestor.py`) -/

namespace Ing

/-- One entry of a `rag_results` category list (`ingestor._make_result`). -/
structure RagResult where
  query : Str
  answer : Str
  mode : Str
  success : Bool
deriving DecidableEq, Repr

/-- `ingestor._make_result`. -/
def make_result (q a : Str) : RagResult :=
  ⟨q, a, "direct_parse".data, true⟩

/-- `ingestor._collect_category_text`. -/
def collect_category_text (sections : List DocSection) (cat : Str) : Str :=
  pyStrip (List.intercalate "\n\n".data
    (((sections.filter (fun s => s.category == cat && !s.text.isEmpty)).map
      (fun s => s.text))))

/-- `enumerate(xs, 1)`. -/
def enumFrom {α : Type} (n : Nat) : List α → List (Nat × α)
  | [] => []
  | x :: xs => (n, x) :: enumFrom (n + 1) xs

/-- `ingestor._summarise_figures`. -/
def summarise_figures (figures : List Figure) : Str :=
  if figures.isEmpty then "No figures detected.".data
  else
    joinNl ((enumFrom 1 figures).map (fun p =>
      let cap := pyStrip p.2.caption
      let path := pyStrip p.2.path
      if !cap.isEmpty && !path.isEmpty then
        "Figure ".data ++ natStr p.1 ++ ": ".data ++ cap ++ " (file: ".data ++ path ++ [')']
      else if !cap.isEmpty then "Figure ".data ++ natStr p.1 ++ ": ".data ++ cap
      else if !path.isEmpty then "Figure ".data ++ natStr p.1 ++ ": ".data ++ path
      else "Figure ".data ++ natStr p.1 ++ ": (no description)".data))

/-- `ingestor._summarise_tables`. -/
def summarise_tables (tables : List Str) : Str :=
  if tables.isEmpty then "No tables detected.".data
  else
    joinNl ((enumFrom 1 tables).map (fun p =>
      "Table ".data ++ natStr p.1 ++ ": ".data ++
        ((pyStrip p.2).take 200).map (fun c => if c = '\n' then ' ' else c)))

/-- `ingestor._summarise_equations` (cap at 30, 120-char previews). -/
def summarise_equations (equations : List Str) : Str :=
  if equations.isEmpty then "No equations detected.".data
  else
    let lines := (enumFrom 1 (equations.take 30)).map (fun p =>
      "Eq. ".data ++ natStr p.1 ++ ": ".data ++ (pyStrip p.2).take 120)
    joinNl (if equations.length > 30 then
      lines ++ ["... and ".data ++ natStr (equations.length - 30) ++ " more equations.".data]
     else lines)

/-- The fixed question string of each `rag_results` key. -/
def questionFor (key : Str) : Str :=
  if key == "paper_info".data then "What is this document about?".data
  else if key == "motivation".data then "What is the problem/motivation?".data
  else if key == "solution".data then "What is the proposed solution/method?".data
  else if key == "results".data then "What are the results/findings?".data
  else if key == "contributions".data then "What are the contributions/conclusions?".data
  else if key == "figures".data then "What figures are in the document?".data
  else if key == "tables".data then "What tables are in the document?".data
  else if key == "equations".data then "What equations are in the document?".data
  else []

/-- The `rag_results` dict built by `ingest_document` step 3 (`stem` is
`fp.stem`, the input file's stem). -/
def ragResults (parsed : ParsedDoc) (stem : Str) : List (Str × List RagResult) :=
  let title := if parsed.title.isEmpty then stem else parsed.title
  let authors := if parsed.authors.isEmpty then "Unknown".data else parsed.authors
  let abstract := if parsed.abstract.isEmpty then "Not provided.".data else parsed.abstract
  let motivationText := collect_category_text parsed.sections "motivation".data
  let solutionText := collect_category_text parsed.sections "solution".data
  let resultsText := collect_category_text parsed.sections "results".data
  let contributionsText := collect_category_text parsed.sections "contributions".data
  let paperInfoText := collect_category_text parsed.sections "paper_info".data
  let paperInfoAnswer :=
    "Title: ".data ++ title ++ "\nAuthors: ".data ++ authors ++
      "\nAbstract: ".data ++ abstract ++
      (if paperInfoText.isEmpty then []
       else "\n\nAdditional content:\n".data ++ paperInfoText)
  [("paper_info".data,
    [make_result "What is this document about?".data paperInfoAnswer]),
   ("motivation".data,
    [make_result "What is the problem/motivation?".data
      (if motivationText.isEmpty then "Not explicitly stated.".data else motivationText)]),
   ("solution".data,
    [make_result "What is the proposed solution/method?".data
      (if solutionText.isEmpty then "Not explicitly stated.".data else solutionText)]),
   ("results".data,
    [make_result "What are the results/findings?".data
      (if resultsText.isEmpty then "Not explicitly stated.".data else resultsText)]),
   ("contributions".data,
    [make_result "What are the contributions/conclusions?".data
      (if contributionsText.isEmpty then "Not explicitly stated.".data else contributionsText)]),
   ("figures".data,
    [make_result "What figures are in the document?".data
      (summarise_figures parsed.figures)]),
   ("tables".data,
    [make_result "What tables are in the document?".data
      (summarise_tables parsed.tables)]),
   ("equations".data,
    [make_result "What equations are in the document?".data
      (summarise_equations parsed.equations)])]

/-- The persisted checkpoint record (`rag_data`, `ingest_document` step 4). -/
structure RagData where
  rag_results : List (Str × List RagResult)
  markdown_paths : List Str
  input_path : Str
  content_type : Str
  mode : Str
deriving DecidableEq, Repr

/-- The record returned and written by `ingest_document` for a successfully
parsed input. -/
def ingest_document_record (parsed : ParsedDoc) (stem inputPath contentType exportPath : Str) :
    RagData :=
  ⟨ragResults parsed stem, [exportPath], inputPath, contentType, "fast".data⟩

end Ing

/-! ## Spec-side helper definitions -/

/-- Spec-side deduplication (§3 / §8): keep every string's first occurrence,
remove all later duplicates, preserving first-seen order. -/
def specDedup : List Str → List Str
  | [] => []
  | x :: xs => x :: (specDedup xs).filter (fun y => decide (y ≠ x))

/-- The answer stored under `key` in a `rag_results` record. -/
def ragAnswer (r : List (Str × List Ing.RagResult)) (key : Str) : Str :=
  match (r.filter (fun kv => kv.1 == key)).head? with
  | some kv =>
      match kv.2 with
      | res :: _ => res.answer
      | [] => []
  | none => []

/-! ## Concrete inputs used by the claims -/

/-- The end-to-end Markdown scenario input of spec §8. -/
def c1Input : Str :=
  "# My Paper\n\nJane Doe, John Roe\n\n## Abstract\n\nWe study X.\n\n## Introduction\n\nX is hard.\n\n## Method\n\nWe do Y.\n".data

/-- A Markdown document with a repeated display equation. -/
def c2MdInput : Str :=
  "$$x+y$$ and $$x+y$$".data

/-- The input `\cmd{a{b}c}` of spec §8. -/
def c5Input : Str :=
  "\\cmd".data ++ '{' :: 'a' :: '{' :: 'b' :: '}' :: 'c' :: '}' :: []

/-- The expected extraction `a{b}c`. -/
def c5Arg : Str :=
  'a' :: '{' :: 'b' :: '}' :: 'c' :: []

/-- Content of a file that `\input`s itself. -/
def c6SelfText : Str :=
  "A\\input{main}B".data

/-- A file system containing only the self-referential file. -/
def c6Fs : Tex.FileSys :=
  [("./main.tex".data, c6SelfText)]

/-- Expansion of the self-referential file: six resolved layers, then the
directive is left unexpanded at the depth cap. -/
def c6Expected : Str :=
  "AAAAAAA\\input{main}BBBBBBB".data

/-- Three extracted files: only `main.tex` has both markers and is the one
referencing `sub.tex`. -/
def c7Files : Tex.FileSys :=
  [("/x/sub.tex".data, "\\section{A}".data),
   ("/x/main.tex".data,
    "\\documentclass{article}\n\\begin{document}\n\\input{sub}\n\\end{document}".data),
   ("/x/other.tex".data, "nothing".data)]

/-- A three-line pipe block (second line a separator row) between text. -/
def c8Good : Str :=
  "| a | b |\n|---|---|\n| 1 | 2 |\nend".data

/-- The table captured from `c8Good`. -/
def c8GoodTable : Str :=
  "| a | b |\n|---|---|\n| 1 | 2 |".data

/-- A single isolated pipe line at the end of the input. -/
def c8Eof : Str :=
  "hello\na | b".data

/-- A single isolated pipe line followed by a pipe-free line. -/
def c8Mid : Str :=
  "hello\na | b\nend".data

/-- A Markdown document whose only heading is an H1. -/
def c9Input : Str :=
  "# T\n\nx\n".data

/-- The section produced from `c9Input`. -/
def c9Sec : DocSection :=
  ⟨"T".data, 1, "x".data, "paper_info".data⟩

/-- An empty parsed document (no title/authors/abstract/content). -/
def emptyDoc : ParsedDoc :=
  ⟨[], [], [], [], [], [], []⟩

/-! # Theorems -/

/-! ## C4 / C5 : brace extraction -/

set_option maxRecDepth 4096

/--
Claim C4 (status: code bug).  The claim (and the function's own docstring,
"Returns the content (without outer braces) or `''` on failure") say that
when no balanced group completes before the end of the buffer the extractor
returns an empty result.  On `"{ab"` with start 0, no balanced group is
completed, yet the code returns the accumulated buffer `"ab"`, not `""`.
The function does return without raising.
-/
theorem c4_failing_eval :
    Tex.extract_braced "\x7bab".data 0 = "ab".data ∧ "ab".data ≠ ([] : Str) := by
  decide

/-- The scan loop returns `buf.reverse ++ s` when `s` keeps the running
depth `d ≥ 1` positive (in the `balGo` sense) and the next `}` closes it. -/
theorem extractBracedGo_balanced :
    ∀ (s rest : Str) (d : Int) (buf : Str), 1 ≤ d → balGo s (d - 1) = true →
      Tex.extractBracedGo (s ++ '}' :: rest) d buf = buf.reverse ++ s := by
  intro s
  induction s with
  | nil =>
      intro rest d buf hd hb
      simp only [balGo, decide_eq_true_eq] at hb
      have hd1 : d = 1 := by omega
      subst hd1
      simp [Tex.extractBracedGo]
  | cons c s ih =>
      intro rest d buf hd hb
      simp only [balGo, Bool.and_eq_true, decide_eq_true_eq] at hb
      obtain ⟨hge, hb⟩ := hb
      rw [List.cons_append, Tex.extractBracedGo]
      by_cases hc : c = '{'
      · subst hc
        have hδ : braceDelta '{' = 1 := by decide
        rw [hδ] at hge hb
        have harg : d - 1 + 1 = d + 1 - 1 := by ring
        rw [if_pos rfl, if_pos (by omega : d > 0)]
        rw [ih rest (d + 1) ('{' :: buf) (by omega) (by rwa [harg] at hb)]
        simp
      · by_cases hc2 : c = '}'
        · subst hc2
          have hδ : braceDelta '}' = -1 := by decide
          rw [hδ] at hge hb
          rw [if_neg hc, if_pos rfl, if_neg (by omega : ¬(d - 1 = 0))]
          have harg : d - 1 + -1 = d - 1 - 1 := by ring
          rw [ih rest (d - 1) ('}' :: buf) (by omega) (by rwa [harg] at hb)]
          simp
        · have hδ : braceDelta c = 0 := by
            simp [braceDelta, hc, hc2]
          rw [hδ] at hge hb
          rw [if_neg hc, if_neg hc2, if_pos (by omega : d > 0)]
          rw [ih rest d (c :: buf) hd (by rwa [Int.add_zero] at hb)]
          simp

/--
Claim C5 (status: confirmed).  Locating `\cmd` in `\cmd{a{b}c}` and
extracting its braced argument yields exactly `a{b}c`; and in general the
brace extractor returns the full content of any balanced group, nested
braces intact, at arbitrary nesting depth.
-/
theorem c5_brace_extraction :
    Tex.extract_command_arg c5Input "cmd".data = some c5Arg ∧
    (∀ (s rest : Str), balancedBraces s = true →
      Tex.extract_braced ('{' :: s ++ '}' :: rest) 0 = s) := by
  constructor
  · decide
  · intro s rest hbal
    show Tex.extractBracedGo (List.drop 0 ('{' :: s ++ '}' :: rest)) 0 [] = s
    rw [List.drop_zero]
    show Tex.extractBracedGo ('{' :: (s ++ '}' :: rest)) 0 [] = s
    rw [Tex.extractBracedGo]
    rw [if_pos rfl, if_neg (by decide : ¬((0 : Int) > 0))]
    have h01 : (0 : Int) + 1 = 1 := by ring
    rw [h01]
    have := extractBracedGo_balanced s rest 1 [] le_rfl (by simpa [balancedBraces] using hbal)
    simpa using this

/-- Witness for C5's general clause at the concrete balanced content. -/
theorem c5_brace_extraction_witness :
    Tex.extract_braced ('{' :: c5Arg ++ '}' :: []) 0 = c5Arg :=
  c5_brace_extraction.2 c5Arg [] (by decide)

/-! ## C6 : include resolution -/

/--
Claim C6 (status: confirmed).  Include resolution terminates for every
input — `inline_includes` is a total function — and the recursion depth is
capped: any call at depth > 5 returns the text with its directives left
unexpanded, and a file that `\input`s itself resolves to a fixed output in
which the innermost directive remains unexpanded.
-/
theorem c6_include_cap :
    (∀ (fs : Tex.FileSys) (text baseDir : Str) (depth : Nat), 5 < depth →
      Tex.inline_includes fs text baseDir depth = text) ∧
    Tex.inline_includes c6Fs c6SelfText ".".data 0 = c6Expected ∧
    containsSub "\\input{main}".data c6Expected = true := by
  refine ⟨?_, by decide, by decide⟩
  intro fs text baseDir depth h
  unfold Tex.inline_includes
  have h0 : 6 - depth = 0 := by omega
  rw [h0, Tex.inlineIncludesCore]

/-- Witness for C6's depth-cap clause at depth 6. -/
theorem c6_include_cap_witness :
    Tex.inline_includes c6Fs c6SelfText ".".data 6 = c6SelfText :=
  c6_include_cap.1 c6Fs c6SelfText ".".data 6 (by decide)

/-! ## C3 : heading classification -/

/-- `classifyPriority` only produces categories from the table or the
default `paper_info`. -/
theorem classifyPriority_mem :
    ∀ (table : List (List Str × Str)) (h : Str),
      (∀ row ∈ table, row.2 ∈ categoryEnum) →
      classifyPriority table h ∈ categoryEnum := by
  intro table
  induction table with
  | nil =>
      intro h _
      simp [classifyPriority, categoryEnum]
  | cons row rest ih =>
      intro h hrows
      rw [show classifyPriority (row :: rest) h =
        (if row.1.any (fun k => containsSub k h) then row.2
         else classifyPriority rest h) from rfl]
      by_cases hc : row.1.any (fun k => containsSub k h) = true
      · rw [if_pos hc]
        exact hrows row (List.mem_cons_self row rest)
      · rw [if_neg hc]
        exact ih h (fun r hr => hrows r (List.mem_cons_of_mem row hr))

/-- The Markdown classifier is the priority-table classifier on the
lower-cased heading. -/
theorem md_classify_eq_priority :
    ∀ h, Md.classify_section h = classifyPriority Md.keywordTable (pyLower h) := by
  intro h
  simp only [Md.classify_section, Md.keywordTable, classifyPriority,
    List.any_cons, List.any_nil, Bool.or_false]

/-- The LaTeX classifier is the priority-table classifier on the
lower-cased heading. -/
theorem tex_classify_eq_priority :
    ∀ h, Tex.classify_section h = classifyPriority Tex.keywordTable (pyLower h) := by
  intro h
  simp only [Tex.classify_section, Tex.keywordTable, classifyPriority,
    List.any_cons, List.any_nil, Bool.or_false]

/--
Claim C3 (status: confirmed).  Both section classifiers are total
single-valued functions of the heading text: they equal the spec's
first-match priority-table classifier (abstract → motivation → solution →
results → contributions, default `paper_info`) over lower-cased substring
membership, and always return one of the six enumeration categories.
-/
theorem c3_classification :
    ∀ h : Str,
      Md.classify_section h = classifyPriority Md.keywordTable (pyLower h) ∧
      Tex.classify_section h = classifyPriority Tex.keywordTable (pyLower h) ∧
      Md.classify_section h ∈ categoryEnum ∧
      Tex.classify_section h ∈ categoryEnum := by
  intro h
  refine ⟨md_classify_eq_priority h, tex_classify_eq_priority h, ?_, ?_⟩
  · rw [md_classify_eq_priority h]
    exact classifyPriority_mem Md.keywordTable (pyLower h) (by decide)
  · rw [tex_classify_eq_priority h]
    exact classifyPriority_mem Tex.keywordTable (pyLower h) (by decide)

/-! ## C8 : Markdown table detection -/

/--
Claim C8 (status: code bug).  A 3-line pipe block with a separator second
row is captured as exactly one table, and an isolated pipe line followed by
further text is discarded — but the claim's second half ("every single
isolated pipe line is discarded and never emitted") fails when that line is
the last line of the input: the final-buffer flush of `parse_markdown`
appends the open run unconditionally, skipping the ≥2-lines/separator
check, so `"hello\na | b"` yields the table `"a | b"`.
-/
theorem c8_table_eval :
    (Md.parse_markdown c8Good).tables = [c8GoodTable] ∧
    (Md.parse_markdown c8Mid).tables = [] ∧
    (Md.parse_markdown c8Eof).tables = ["a | b".data] := by
  refine ⟨by decide, by decide, by decide⟩

/-! ## C1 : end-to-end Markdown scenario -/

/--
Counterexample to claim C1 as stated: on the spec's end-to-end input the
parser does not return three sections with authors `"Jane Doe, John Roe"` —
the H1 title itself becomes a fourth (first) section and the author line,
living inside the H1 section's body rather than the preamble, is never
picked up.
-/
theorem c1_counterexample :
    ¬ ((Md.parse_markdown c1Input).sections.length = 3 ∧
        (Md.parse_markdown c1Input).authors = "Jane Doe, John Roe".data) := by
  decide

/--
Claim C1 (status: corrected).  For the end-to-end input, `parse_markdown`
returns title `"My Paper"`, abstract `"We study X."`, empty authors (the
author line sits in the H1 section's body, not the preamble scanned by the
author heuristic), and exactly four sections whose categories are, in
order, `paper_info` (the H1 title section), `abstract`, `motivation`,
`solution`.
-/
theorem c1_amended :
    (Md.parse_markdown c1Input).title = "My Paper".data ∧
    (Md.parse_markdown c1Input).authors = [] ∧
    (Md.parse_markdown c1Input).abstract = "We study X.".data ∧
    (Md.parse_markdown c1Input).sections.map DocSection.category =
      ["paper_info".data, "abstract".data, "motivation".data, "solution".data] ∧
    (Md.parse_markdown c1Input).sections.map DocSection.level = [1, 2, 2, 2] := by
  refine ⟨by decide, by decide, by decide, by decide, by decide⟩

/-! ## C2 : equation deduplication -/

/-- The `seen`-set loop equals `specDedup` filtered by the seen set. -/
theorem dedupGo_eq_filter :
    ∀ (l seen : List Str),
      Tex.dedupGo seen l = (specDedup l).filter (fun y => !(seen.contains y)) := by
  intro l
  induction l with
  | nil => intro seen; rfl
  | cons x xs ih =>
      intro seen
      rw [Tex.dedupGo, specDedup, List.filter_cons]
      by_cases hx : seen.contains x = true
      · rw [if_pos hx, ih seen, List.filter_filter]
        simp only [hx, Bool.not_true, if_neg (by simp : ¬(false = true))]
        apply List.filter_congr
        intro y _
        by_cases hyx : y = x
        · subst hyx
          simp [List.elem_iff.1 hx]
        · simp [hyx]
      · rw [if_neg hx, ih (x :: seen), List.filter_filter]
        have hx' : (!seen.contains x) = true := by
          cases hcs : seen.contains x
          · rfl
          · exact absurd hcs hx
        rw [if_pos hx']
        congr 1
        apply List.filter_congr
        intro y _
        by_cases hyx : y = x
        · subst hyx
          simp [List.contains_cons]
        · have hby : (y == x) = false := beq_eq_false_iff_ne.2 hyx
          simp [List.contains_cons, hyx, hby]

/-- The parser's deduplication loop is exactly `specDedup`. -/
theorem pyDedup_eq_specDedup : ∀ l : List Str, Tex.pyDedup l = specDedup l := by
  intro l
  rw [Tex.pyDedup, dedupGo_eq_filter]
  simp

/-- `specDedup` output has no duplicates. -/
theorem specDedup_nodup : ∀ l : List Str, (specDedup l).Nodup := by
  intro l
  induction l with
  | nil => exact List.nodup_nil
  | cons x xs ih =>
      rw [specDedup]
      refine List.Nodup.cons ?_ (List.Nodup.filter _ ih)
      intro hx
      have := (List.mem_filter.1 hx).2
      simp at this

/-- `specDedup` preserves membership exactly. -/
theorem mem_specDedup : ∀ (l : List Str) (a : Str), a ∈ specDedup l ↔ a ∈ l := by
  intro l
  induction l with
  | nil => intro a; rfl
  | cons x xs ih =>
      intro a
      rw [specDedup]
      by_cases hax : a = x
      · subst hax
        simp
      · simp only [List.mem_cons, List.mem_filter, ih, decide_eq_true_eq]
        constructor
        · rintro (rfl | ⟨h, _⟩)
          · exact Or.inl rfl
          · exact Or.inr h
        · rintro (rfl | h)
          · exact Or.inl rfl
          · exact Or.inr ⟨h, hax⟩

/--
Counterexample to claim C2 as stated: the Markdown parser does not
deduplicate.  On `"$$x+y$$ and $$x+y$$"` the equation string `"x+y"` occurs
twice in the input and twice in the returned equations list.
-/
theorem c2_counterexample :
    (Md.parse_markdown c2MdInput).equations = ["x+y".data, "x+y".data] ∧
    ((Md.parse_markdown c2MdInput).equations).count "x+y".data = 2 := by
  refine ⟨by decide, by decide⟩

/--
Claim C2 (status: corrected).  Only the LaTeX parser deduplicates: for
every LaTeX input its equations list is the accumulated equation list with
every string kept exactly once at the position of its first occurrence
(`specDedup`), hence duplicate-free with unchanged membership; the Markdown
parser keeps duplicate equation strings (see the counterexample).
-/
theorem c2_latex_dedup :
    ∀ raw : Str,
      (Tex.parse_latex_raw raw).equations = specDedup (Tex.texRawEquations raw) ∧
      ((Tex.parse_latex_raw raw).equations).Nodup ∧
      (∀ e, e ∈ (Tex.parse_latex_raw raw).equations ↔ e ∈ Tex.texRawEquations raw) := by
  intro raw
  have heq : (Tex.parse_latex_raw raw).equations = Tex.pyDedup (Tex.texRawEquations raw) := rfl
  rw [heq, pyDedup_eq_specDedup]
  exact ⟨rfl, specDedup_nodup _, fun e => mem_specDedup _ e⟩

/-! ## C9 : section nesting levels -/

/-- A successful heading match carries 1–6 hashes. -/
theorem matchHeading_level_bounds :
    ∀ (s : Str) (res : Nat × Str × Str),
      Md.matchHeading s = some res → 1 ≤ res.1 ∧ res.1 ≤ 6 := by
  intro s res h
  unfold Md.matchHeading at h
  by_cases hr : (1 ≤ (s.takeWhile (fun c => c = '#')).length &&
      (s.takeWhile (fun c => c = '#')).length ≤ 6) = true
  · have hb := hr
    simp only [Bool.and_eq_true, decide_eq_true_eq] at hb
    rw [if_pos hr] at h
    dsimp only at h
    split at h
    · exact absurd h (by simp)
    · split at h
      · split at h
        · exact Option.some.inj h ▸ hb
        · split at h
          · exact Option.some.inj h ▸ hb
          · exact absurd h (by simp)
      · exact absurd h (by simp)
  · rw [if_neg hr] at h
    exact absurd h (by simp)

/-- Every triple produced by the heading split has a level in 1–6. -/
theorem splitHeadingsF_level_bounds :
    ∀ (f : Nat) (atStart : Bool) (s : Str) (t : Nat × Str × Str),
      t ∈ (Md.splitHeadingsF f atStart s).2 → 1 ≤ t.1 ∧ t.1 ≤ 6 := by
  intro f
  induction f with
  | zero =>
      intro atStart s t ht
      simp [Md.splitHeadingsF] at ht
  | succ f ih =>
      intro atStart s t ht
      match s with
      | [] => simp [Md.splitHeadingsF] at ht
      | c :: cs =>
          rw [Md.splitHeadingsF] at ht
          by_cases ha : atStart
          · rw [if_pos ha] at ht
            rcases hm : Md.matchHeading (c :: cs) with _ | ⟨lvl, hd, rest⟩
            · rw [hm] at ht
              exact ih (c = '\n') cs t ht
            · rw [hm] at ht
              dsimp only at ht
              rcases hp : Md.splitHeadingsF f false rest with ⟨seg, secs⟩
              rw [hp] at ht
              dsimp only at ht
              simp only [List.mem_cons] at ht
              rcases ht with rfl | ht
              · exact matchHeading_level_bounds (c :: cs) (lvl, hd, rest) hm
              · have := ih false rest t
                rw [hp] at this
                exact this ht
          · rw [if_neg ha] at ht
            exact ih (c = '\n') cs t ht

/-- Every section produced by the Markdown section loop takes its level
from one of the split triples. -/
theorem mdSectionsFold_levels :
    ∀ (triples : List (Nat × Str × Str)) (title abs : Str) (sec : DocSection),
      sec ∈ (Md.mdSectionsFold triples title abs).2.2 →
      ∃ t ∈ triples, sec.level = t.1 := by
  intro triples
  induction triples with
  | nil =>
      intro title abs sec hs
      simp [Md.mdSectionsFold] at hs
  | cons t rest ih =>
      intro title abs sec hs
      obtain ⟨lvl, h, body⟩ := t
      rw [Md.mdSectionsFold] at hs
      simp only [List.mem_cons] at hs
      rcases hs with rfl | hs
      · exact ⟨(lvl, h, body), List.mem_cons_self _ _, rfl⟩
      · obtain ⟨t', ht', hlvl⟩ := ih _ _ sec hs
        exact ⟨t', List.mem_cons_of_mem _ ht', hlvl⟩

/-- `_level_map.get(cmd, 1)` always lands in 1–3. -/
theorem level_map_bounds : ∀ cmd : Str, 1 ≤ Tex.level_map cmd ∧ Tex.level_map cmd ≤ 3 := by
  intro cmd
  unfold Tex.level_map
  split
  · omega
  · split
    · omega
    · split
      · omega
      · omega

/-- Every section produced by the LaTeX section loop has a `level_map`
level. -/
theorem texSectionsFold_levels :
    ∀ (l : List ((Str × Str) × Str)) (abs : Str) (sec : DocSection),
      sec ∈ (Tex.texSectionsFold l abs).2 →
      ∃ cmd : Str, sec.level = Tex.level_map cmd := by
  intro l
  induction l with
  | nil =>
      intro abs sec hs
      simp [Tex.texSectionsFold] at hs
  | cons t rest ih =>
      intro abs sec hs
      obtain ⟨⟨cmd, hRaw⟩, bRaw⟩ := t
      rw [Tex.texSectionsFold] at hs
      simp only [List.mem_cons] at hs
      rcases hs with rfl | hs
      · exact ⟨cmd, rfl⟩
      · exact ih _ sec hs

/--
Counterexample to claim C9 as stated: the Markdown parser emits the `# T`
heading as a section of level 1, outside the claimed 2–6 range.
-/
theorem c9_counterexample :
    (Md.parse_markdown c9Input).sections.map DocSection.level = [1] ∧
    ¬ (∀ s ∈ (Md.parse_markdown c9Input).sections, 2 ≤ s.level) := by
  refine ⟨by decide, by decide⟩

/--
Claim C9 (status: corrected).  Every Markdown-parsed section has a level
between 1 and 6 — the raw heading depth, so H1 headings yield level-1
sections and the 2–6 clamp only happens later in the exporter — and every
LaTeX-parsed section has a level between 1 and 3.
-/
theorem c9_level_bounds :
    (∀ text : Str, ∀ s ∈ (Md.parse_markdown text).sections,
      1 ≤ s.level ∧ s.level ≤ 6) ∧
    (∀ raw : Str, ∀ s ∈ (Tex.parse_latex_raw raw).sections,
      1 ≤ s.level ∧ s.level ≤ 3) := by
  constructor
  · intro text s hs
    simp only [Md.parse_markdown] at hs
    obtain ⟨t, ht, hlvl⟩ := mdSectionsFold_levels _ _ _ s hs
    rw [hlvl]
    exact splitHeadingsF_level_bounds _ _ _ t ht
  · intro raw s hs
    simp only [Tex.parse_latex_raw] at hs
    obtain ⟨cmd, hlvl⟩ := texSectionsFold_levels _ _ s hs
    rw [hlvl]
    exact level_map_bounds cmd

/-- Witness for C9's bounds at the H1 section of the end-to-end input. -/
theorem c9_level_bounds_witness :
    1 ≤ (⟨"My Paper".data, 1, "Jane Doe, John Roe".data, "paper_info".data⟩ : DocSection).level ∧
    (⟨"My Paper".data, 1, "Jane Doe, John Roe".data, "paper_info".data⟩ : DocSection).level ≤ 6 :=
  c9_level_bounds.1 c1Input _ (by decide)

/-! ## C7 : archive main-file selection -/

/-- `argmaxGo` keeps its current best when nothing later beats it. -/
theorem argmaxGo_keep :
    ∀ (l : List (Str × Int)) (best : Str × Int),
      (∀ x ∈ l, x.2 ≤ best.2) → Zip.argmaxGo best l = best := by
  intro l
  induction l with
  | nil => intro best _; rfl
  | cons x xs ih =>
      intro best hle
      rw [Zip.argmaxGo]
      rw [if_neg (by
        have := hle x (List.mem_cons_self x xs)
        omega)]
      exact ih best (fun y hy => hle y (List.mem_cons_of_mem x hy))

/-- `argmaxGo` reaches the unique strict maximum. -/
theorem argmaxGo_unique :
    ∀ (l : List (Str × Int)) (best : Str × Int) (a : Str) (s : Int),
      (a, s) ∈ l → best.2 < s → (∀ x ∈ l, x ≠ (a, s) → x.2 < s) →
      Zip.argmaxGo best l = (a, s) := by
  intro l
  induction l with
  | nil =>
      intro best a s hmem _ _
      exact absurd hmem (List.not_mem_nil _)
  | cons x xs ih =>
      intro best a s hmem hlt hstrict
      rw [Zip.argmaxGo]
      by_cases hx : x = (a, s)
      · subst hx
        rw [if_pos (by exact hlt)]
        apply argmaxGo_keep
        intro y hy
        by_cases hyx : y = (a, s)
        · subst hyx
          exact le_refl _
        · have := hstrict y (List.mem_cons_of_mem _ hy) hyx
          omega
      · have hxlt : x.2 < s := hstrict x (List.mem_cons_self x xs) hx
        have hmem' : (a, s) ∈ xs := by
          rcases List.mem_cons.1 hmem with h | h
          · exact absurd h.symm hx
          · exact h
        have hstrict' : ∀ y ∈ xs, y ≠ (a, s) → y.2 < s :=
          fun y hy => hstrict y (List.mem_cons_of_mem x hy)
        by_cases hgt : x.2 > best.2
        · rw [if_pos hgt]
          exact ih x a s hmem' hxlt hstrict'
        · rw [if_neg hgt]
          exact ih best a s hmem' hlt hstrict'

/-- Python `max` returns the unique strict maximum regardless of where it
sits in the list. -/
theorem pyMaxByScore_unique :
    ∀ (l : List (Str × Int)) (a : Str) (s : Int),
      (a, s) ∈ l → (∀ x ∈ l, x ≠ (a, s) → x.2 < s) →
      Zip.pyMaxByScore l = some a := by
  intro l a s hmem hstrict
  match l with
  | [] => exact absurd hmem (List.not_mem_nil _)
  | x :: xs =>
      rw [Zip.pyMaxByScore]
      by_cases hx : x = (a, s)
      · subst hx
        rw [argmaxGo_keep xs (a, s) (fun y hy => by
          by_cases hyx : y = (a, s)
          · rw [hyx]
          · have := hstrict y (List.mem_cons_of_mem _ hy) hyx
            omega)]
      · have hxlt : x.2 < s := hstrict x (List.mem_cons_self x xs) hx
        have hmem' : (a, s) ∈ xs := by
          rcases List.mem_cons.1 hmem with h | h
          · exact absurd h.symm hx
          · exact h
        rw [argmaxGo_unique xs x a s hmem' hxlt
          (fun y hy => hstrict y (List.mem_cons_of_mem x hy))]

/-- A file with both markers and no inclusions scores exactly 150. -/
theorem score_both_markers :
    ∀ (files : Tex.FileSys) (f : Str × Str),
      containsSub "\\documentclass".data f.2 = true →
      containsSub "\\begin{document}".data f.2 = true →
      Zip.inclusionCount files f.1 = 0 →
      Zip.score files f = 150 := by
  intro files f hdc hbd hcnt
  unfold Zip.score
  rw [if_pos hdc, if_pos hbd, hcnt]
  decide

/-- A file missing a marker or included by another file scores below 150. -/
theorem score_other_lt :
    ∀ (files : Tex.FileSys) (g : Str × Str),
      ¬(containsSub "\\documentclass".data g.2 = true ∧
        containsSub "\\begin{document}".data g.2 = true ∧
        Zip.inclusionCount files g.1 = 0) →
      Zip.score files g < 150 := by
  intro files g hng
  unfold Zip.score
  by_cases h1 : containsSub "\\documentclass".data g.2 = true
  · by_cases h2 : containsSub "\\begin{document}".data g.2 = true
    · have hc : Zip.inclusionCount files g.1 ≠ 0 := fun h => hng ⟨h1, h2, h⟩
      rw [if_pos h1, if_pos h2]
      have : (1 : Int) ≤ (Zip.inclusionCount files g.1 : Int) := by
        exact_mod_cast Nat.one_le_iff_ne_zero.2 hc
      omega
    · rw [if_pos h1, if_neg h2]
      have : (0 : Int) ≤ (Zip.inclusionCount files g.1 : Int) := Int.natCast_nonneg _
      omega
  · rw [if_neg h1]
    have : (0 : Int) ≤ (Zip.inclusionCount files g.1 : Int) := Int.natCast_nonneg _
    by_cases h2 : containsSub "\\begin{document}".data g.2 = true
    · rw [if_pos h2]; omega
    · rw [if_neg h2]; omega

/--
Claim C7 (status: confirmed).  If exactly one extracted `.tex` file both
contains a document-class declaration and a document-begin marker and is
not `\input`/`\include`d by any other file, the selector returns that file
for every enumeration order (the hypotheses are order-independent and the
theorem quantifies over arbitrarily ordered listings with distinct paths):
its score of 150 strictly exceeds every other file's.
-/
theorem c7_main_file_selected :
    ∀ (files : Tex.FileSys) (f : Str × Str),
      f ∈ files →
      (files.map Prod.fst).Nodup →
      containsSub "\\documentclass".data f.2 = true →
      containsSub "\\begin{document}".data f.2 = true →
      Zip.inclusionCount files f.1 = 0 →
      (∀ g ∈ files, g.1 ≠ f.1 →
        ¬(containsSub "\\documentclass".data g.2 = true ∧
          containsSub "\\begin{document}".data g.2 = true ∧
          Zip.inclusionCount files g.1 = 0)) →
      Zip.extract_and_find_main files = some f.1 := by
  intro files f hf hnodup hdc hbd hcnt hothers
  unfold Zip.extract_and_find_main
  apply pyMaxByScore_unique _ f.1 150
  · exact List.mem_map.2 ⟨f, hf, by rw [score_both_markers files f hdc hbd hcnt]⟩
  · intro x hx hne
    obtain ⟨g, hg, rfl⟩ := List.mem_map.1 hx
    by_cases hgf : g.1 = f.1
    · have hgef : g = f := List.inj_on_of_nodup_map hnodup hg hf hgf
      subst hgef
      exact absurd (by rw [score_both_markers files g hdc hbd hcnt]) hne
    · exact score_other_lt files g (hothers g hg hgf)

/-- Witness for C7 on a concrete three-file archive. -/
theorem c7_main_file_selected_witness :
    Zip.extract_and_find_main c7Files = some "/x/main.tex".data :=
  c7_main_file_selected c7Files ("/x/main.tex".data,
      "\\documentclass{article}\n\\begin{document}\n\\input{sub}\n\\end{document}".data)
    (by decide) (by decide) (by decide) (by decide) (by decide) (by decide)

/-! ## C10 : the persisted rag_results record -/

/--
Claim C10 (status: confirmed).  For every successfully parsed document, the
record built by `ingest_document` has a `rag_results` map with exactly the
eight keys in order; each value is a one-element list carrying the fixed
question for its key, mode `"direct_parse"` and success `true`; the four
text categories fall back to `"Not explicitly stated."` and
figures/tables/equations to their fixed placeholders when empty; and the
`paper_info` answer starts with the title/authors/abstract block with stem,
`"Unknown"` and `"Not provided."` substituted for empty fields.
-/
theorem c10_rag_record :
    ∀ (parsed : ParsedDoc) (stem inputPath ct ep : Str),
      ((Ing.ingest_document_record parsed stem inputPath ct ep).rag_results.map
        Prod.fst =
        ["paper_info".data, "motivation".data, "solution".data, "results".data,
         "contributions".data, "figures".data, "tables".data, "equations".data]) ∧
      (∀ kv ∈ (Ing.ingest_document_record parsed stem inputPath ct ep).rag_results,
        ∃ res : Ing.RagResult, kv.2 = [res] ∧ res.query = Ing.questionFor kv.1 ∧
          res.mode = "direct_parse".data ∧ res.success = true) ∧
      (Ing.collect_category_text parsed.sections "motivation".data = [] →
        ragAnswer (Ing.ragResults parsed stem) "motivation".data =
          "Not explicitly stated.".data) ∧
      (Ing.collect_category_text parsed.sections "solution".data = [] →
        ragAnswer (Ing.ragResults parsed stem) "solution".data =
          "Not explicitly stated.".data) ∧
      (Ing.collect_category_text parsed.sections "results".data = [] →
        ragAnswer (Ing.ragResults parsed stem) "results".data =
          "Not explicitly stated.".data) ∧
      (Ing.collect_category_text parsed.sections "contributions".data = [] →
        ragAnswer (Ing.ragResults parsed stem) "contributions".data =
          "Not explicitly stated.".data) ∧
      (parsed.figures = [] →
        ragAnswer (Ing.ragResults parsed stem) "figures".data =
          "No figures detected.".data) ∧
      (parsed.tables = [] →
        ragAnswer (Ing.ragResults parsed stem) "tables".data =
          "No tables detected.".data) ∧
      (parsed.equations = [] →
        ragAnswer (Ing.ragResults parsed stem) "equations".data =
          "No equations detected.".data) ∧
      (∃ extra : Str,
        ragAnswer (Ing.ragResults parsed stem) "paper_info".data =
          "Title: ".data ++ (if parsed.title.isEmpty then stem else parsed.title) ++
          "\nAuthors: ".data ++
            (if parsed.authors.isEmpty then "Unknown".data else parsed.authors) ++
          "\nAbstract: ".data ++
            (if parsed.abstract.isEmpty then "Not provided.".data else parsed.abstract) ++
          extra) := by
  intro parsed stem inputPath ct ep
  refine ⟨rfl, ?_, ?_, ?_, ?_, ?_, ?_, ?_, ?_, ?_⟩
  · intro kv hkv
    have hr : (Ing.ingest_document_record parsed stem inputPath ct ep).rag_results =
        Ing.ragResults parsed stem := rfl
    rw [hr] at hkv
    simp only [Ing.ragResults, List.mem_cons, List.not_mem_nil, or_false] at hkv
    rcases hkv with rfl | rfl | rfl | rfl | rfl | rfl | rfl | rfl
    · exact ⟨_, rfl, rfl, rfl, rfl⟩
    · exact ⟨_, rfl, rfl, rfl, rfl⟩
    · exact ⟨_, rfl, rfl, rfl, rfl⟩
    · exact ⟨_, rfl, rfl, rfl, rfl⟩
    · exact ⟨_, rfl, rfl, rfl, rfl⟩
    · exact ⟨_, rfl, rfl, rfl, rfl⟩
    · exact ⟨_, rfl, rfl, rfl, rfl⟩
    · exact ⟨_, rfl, rfl, rfl, rfl⟩
  · intro h
    have : ragAnswer (Ing.ragResults parsed stem) "motivation".data =
        (if (Ing.collect_category_text parsed.sections "motivation".data).isEmpty
         then "Not explicitly stated.".data
         else Ing.collect_category_text parsed.sections "motivation".data) := rfl
    rw [this, h]
    rfl
  · intro h
    have : ragAnswer (Ing.ragResults parsed stem) "solution".data =
        (if (Ing.collect_category_text parsed.sections "solution".data).isEmpty
         then "Not explicitly stated.".data
         else Ing.collect_category_text parsed.sections "solution".data) := rfl
    rw [this, h]
    rfl
  · intro h
    have : ragAnswer (Ing.ragResults parsed stem) "results".data =
        (if (Ing.collect_category_text parsed.sections "results".data).isEmpty
         then "Not explicitly stated.".data
         else Ing.collect_category_text parsed.sections "results".data) := rfl
    rw [this, h]
    rfl
  · intro h
    have : ragAnswer (Ing.ragResults parsed stem) "contributions".data =
        (if (Ing.collect_category_text parsed.sections "contributions".data).isEmpty
         then "Not explicitly stated.".data
         else Ing.collect_category_text parsed.sections "contributions".data) := rfl
    rw [this, h]
    rfl
  · intro h
    have : ragAnswer (Ing.ragResults parsed stem) "figures".data =
        Ing.summarise_figures parsed.figures := rfl
    rw [this, h]
    rfl
  · intro h
    have : ragAnswer (Ing.ragResults parsed stem) "tables".data =
        Ing.summarise_tables parsed.tables := rfl
    rw [this, h]
    rfl
  · intro h
    have : ragAnswer (Ing.ragResults parsed stem) "equations".data =
        Ing.summarise_equations parsed.equations := rfl
    rw [this, h]
    rfl
  · exact ⟨_, rfl⟩

/-- Witness for C10's placeholder clauses on the empty parsed document. -/
theorem c10_rag_record_witness :
    ragAnswer (Ing.ragResults emptyDoc "doc".data) "motivation".data =
      "Not explicitly stated.".data ∧
    ragAnswer (Ing.ragResults emptyDoc "doc".data) "figures".data =
      "No figures detected.".data :=
  ⟨(c10_rag_record emptyDoc "doc".data "in.md".data "paper".data "e.md".data).2.2.1
      (by decide),
   (c10_rag_record emptyDoc "doc".data "in.md".data "paper".data "e.md".data).2.2.2.2.2.2.1
      (by decide)⟩
